import Mathlib

/-!
Countdown timer (`main.go`): the playlist state machine

A shallow embedding of the package-level state of `main.go` and of the functions that
mutate it: `updateProgressBar`, `updateTotalProgressBar`, `updateUI`, `updateNextLabel`,
`startTimer` (with the body of its ticking goroutine), `nextStage`, the two button handlers
built in `makeUI`, and the two calls `main` makes before the window is shown.

Conventions of the embedding.

* The package-level variables become the fields of `State`; every function is a state
  transformer. A Go run-time panic (a slice index out of range) is `none`.
* `time.Duration` is an `int64` count of nanoseconds: durations are `Int`, and the one
  subtraction the program performs on them is wrapped by `toInt64`.
* `time.ParseDuration` belongs to the Go library, not to this program: it is the parameter
  `parse`, giving the nanoseconds for a duration literal and `0` where the library reports
  an error (the program discards the error and keeps the zero value).
* A `float64` is kept as the exact rational it stands for, or as one of the three
  non-finite values a division can produce (`Float64`).
* Both progress bars run from `Min = 0` to `Max = 1` (`makeUI` sets `totalProgress.Max`
  to 1.0); a bar refreshed after `SetValue` holds the value brought into that range.
* The ticking goroutine and the user-interface thread are interleaved at the granularity of
  one ticker delivery and one button tap (`Event`).
-/

namespace Countdown

/-! ## Data model -/

/-- The struct `Act`: a stage name and its duration literal. -/
structure Act where
  Name : String
  Time : String
deriving DecidableEq, Repr

/-- The struct `Config`, as read from the YAML document. -/
structure Config where
  Persons : List String
  Random : Bool
  Acts : List Act
  Counter : Bool
  Next : Bool
deriving DecidableEq, Repr

/-- A `float64` value as far as this program can produce one: an exact rational, or the
result of a division by zero. -/
inductive Float64 where
  | finite (q : ℚ)
  | nan
  | posInf
  | negInf
deriving DecidableEq

/-- The package-level variables of `main.go`.

`ticker` is the pointer of the same name: `none` is `nil`, `some true` a ticker that is
delivering ticks, `some false` one on which `Stop` has been called. `tickersMade` counts the
calls of `time.NewTicker` and `totalProgressSets` the calls of `totalProgress.SetValue`; the
labels hold the `Text` of the widgets, `progressBar` and `totalProgress` the `Value` the two
progress bars hold, which is what they show (see `SetValue`).
The variable `timer` is never assigned and stays `nil`; it is left out. -/
structure State where
  currentPersonIndex : Nat
  currentActIndex : Nat
  paused : Bool
  remaining : Int
  currentDuration : Int
  ticker : Option Bool
  tickersMade : Nat
  personLabel : String
  stageLabel : String
  nextLabel : String
  pauseBtn : String
  progressBar : Float64
  totalProgress : Float64
  totalProgressSets : Nat
deriving DecidableEq

/-- The user-visible events: one delivery of the ticker, a tap on "Next", a tap on the
pause button (the space key calls the same handler). -/
inductive Event where
  | tick
  | next
  | pause
deriving DecidableEq, Repr

/-! ## Durations and floats -/

/-- Two's-complement wrap of an integer into the `int64` range. -/
def toInt64 (x : Int) : Int := (x + 2 ^ 63) % 2 ^ 64 - 2 ^ 63

/-- The constant `time.Second`, in nanoseconds. -/
def Second : Int := 1000000000

/-- The result of `time.ParseDuration` with its error dropped, as a `time.Duration`. -/
def parseDuration (parse : String → Int) (t : String) : Int := toInt64 (parse t)

/-- The method `Duration.Seconds`: the duration in seconds, as an exact rational. -/
def Seconds (d : Int) : ℚ := (d : ℚ) / 1000000000

/-- Division of two finite `float64` values, the divisor being a non-negative-signed zero
when it is zero. -/
def fdiv (a b : ℚ) : Float64 :=
  if b = 0 then
    if a = 0 then Float64.nan else if 0 < a then Float64.posInf else Float64.negInf
  else Float64.finite (a / b)

/-- The comparison `x < 0` on `float64`; it is false for NaN. -/
def Float64.ltZero : Float64 → Bool
  | Float64.finite q => decide (q < 0)
  | Float64.nan => false
  | Float64.posInf => false
  | Float64.negInf => true

/-- The value lies in the closed interval from 0 to 1. -/
def Float64.inUnit : Float64 → Prop
  | Float64.finite q => 0 ≤ q ∧ q ≤ 1
  | _ => False

instance (x : Float64) : Decidable x.inUnit := by
  cases x <;> unfold Float64.inUnit <;> infer_instance

/-- The method `SetValue` of a progress bar whose `Min` is 0 and whose `Max` is 1, as both
bars of `makeUI` are: the `Value` the bar holds once the refresh that `SetValue` triggers has
run. A value below `Min` becomes `Min`, a value above `Max` becomes `Max`, and NaN, for which
both comparisons are false, stays. -/
def SetValue (v : Float64) : Float64 :=
  match v with
  | Float64.finite q =>
    if q < 0 then Float64.finite 0 else if 1 < q then Float64.finite 1 else Float64.finite q
  | Float64.nan => Float64.nan
  | Float64.posInf => Float64.finite 1
  | Float64.negInf => Float64.finite 0

/-! ## The functions of `main.go` -/

/-- The local variable `fraction` of `updateProgressBar` when it is passed to `SetValue`:
the quotient of the two durations in seconds, with 0 in place of a negative quotient. -/
def progressFraction (s : State) : Float64 :=
  let fraction := fdiv (Seconds s.remaining) (Seconds s.currentDuration)
  if fraction.ltZero then Float64.finite 0 else fraction

/-- The function `updateProgressBar`. -/
def updateProgressBar (s : State) : State :=
  { s with progressBar := SetValue (progressFraction s) }

/-- The function `updateTotalProgressBar`. -/
def updateTotalProgressBar (config : Config) (s : State) : State :=
  { s with
    totalProgress :=
      SetValue (fdiv ((s.currentPersonIndex + 1 : Nat) : ℚ) (config.Persons.length : ℚ))
    totalProgressSets := s.totalProgressSets + 1 }

/-- The function `updateNextLabel`. -/
def updateNextLabel (config : Config) (s : State) : Option State :=
  if !config.Next then
    some { s with nextLabel := "" }
  else if s.currentPersonIndex + 1 ≥ config.Persons.length then
    some { s with nextLabel := "Next: Last" }
  else
    match config.Persons[s.currentPersonIndex + 1]? with
    | none => none
    | some p => some { s with nextLabel := "Next: " ++ p }

/-- The function `startTimer`, up to the start of its goroutine: the flag `paused` is
cleared, the current ticker is stopped if there is one and a new ticker replaces it. -/
def startTimer (_duration : Int) (s : State) : State :=
  { s with paused := false, ticker := some true, tickersMade := s.tickersMade + 1 }

/-- The function `updateUI`. -/
def updateUI (parse : String → Int) (config : Config) (s : State) : Option State :=
  if s.currentPersonIndex ≥ config.Persons.length then
    some { s with personLabel := "Done" }
  else
    match config.Persons[s.currentPersonIndex]? with
    | none => none
    | some person =>
      match config.Acts[s.currentActIndex]? with
      | none => none
      | some stage =>
        let dur := parseDuration parse stage.Time
        match updateNextLabel config
            { s with personLabel := person, stageLabel := stage.Name,
                     remaining := dur, currentDuration := dur } with
        | none => none
        | some s1 => some (startTimer dur s1)

/-- The function `nextStage`. -/
def nextStage (parse : String → Int) (config : Config) (s : State) : Option State :=
  let s1 := { s with currentActIndex := s.currentActIndex + 1 }
  let s2 :=
    if s1.currentActIndex ≥ config.Acts.length then
      updateTotalProgressBar config
        { s1 with currentActIndex := 0, currentPersonIndex := s1.currentPersonIndex + 1 }
    else s1
  updateUI parse config s2

/-- One delivery of the ticker to the goroutine started by `startTimer`: the body of its
`for range ticker.C` loop. A ticker that is `nil` or stopped delivers nothing. -/
def tick (parse : String → Int) (config : Config) (s : State) : Option State :=
  if s.ticker ≠ some true then some s
  else if s.paused then some s
  else
    let r := toInt64 (s.remaining - Second)
    let r := if r < 0 then 0 else r
    let s1 := updateProgressBar { s with remaining := r }
    if s1.remaining ≤ 0 then
      nextStage parse config { s1 with ticker := some false }
    else some s1

/-- The handler of the button "Next" built in `makeUI`. -/
def nextBtnTapped (parse : String → Int) (config : Config) (s : State) : Option State :=
  let s1 := { s with paused := false }
  let s2 := if s1.ticker ≠ none then { s1 with ticker := some false } else s1
  nextStage parse config { s2 with pauseBtn := "Pause" }

/-- The handler of the pause button built in `makeUI`. -/
def pauseBtnTapped (s : State) : State :=
  let s1 := { s with paused := !s.paused }
  if s1.paused then { s1 with pauseBtn := "Resume" } else { s1 with pauseBtn := "Pause" }

/-- The package-level variables when `makeUI` has returned: the zero values of the
declarations, the progress bars at 0 and the pause button reading "Pause". -/
def init : State :=
  { currentPersonIndex := 0, currentActIndex := 0, paused := false, remaining := 0,
    currentDuration := 0, ticker := none, tickersMade := 0, personLabel := "",
    stageLabel := "", nextLabel := "", pauseBtn := "Pause",
    progressBar := Float64.finite 0, totalProgress := Float64.finite 0,
    totalProgressSets := 0 }

/-- The two calls `main` makes before showing the window: `updateUI` and then
`updateTotalProgressBar`. -/
def start (parse : String → Int) (config : Config) : Option State :=
  match updateUI parse config init with
  | none => none
  | some s => some (updateTotalProgressBar config s)

/-- The effect of one event. -/
def step (parse : String → Int) (config : Config) (e : Event) (s : State) : Option State :=
  match e with
  | Event.tick => tick parse config s
  | Event.next => nextBtnTapped parse config s
  | Event.pause => some (pauseBtnTapped s)

/-- The events of a list applied in order from a state. -/
def runFrom (parse : String → Int) (config : Config) : List Event → State → Option State
  | [], s => some s
  | e :: es, s =>
    match step parse config e s with
    | none => none
    | some s1 => runFrom parse config es s1

/-- The program run from start-up through a list of events. -/
def run (parse : String → Int) (config : Config) (es : List Event) : Option State :=
  match start parse config with
  | none => none
  | some s => runFrom parse config es s

/-- The ticker delivering `k` times in a row. -/
def ticks (parse : String → Int) (config : Config) : Nat → State → Option State
  | 0, s => some s
  | k + 1, s =>
    match ticks parse config k s with
    | none => none
    | some s1 => tick parse config s1

/-! ## The configuration of the worked scenario -/

/-- A duration parser for the literals of the examples. -/
def parseEx (t : String) : Int :=
  if t = "2s" then 2000000000
  else if t = "1s" then 1000000000
  else if t = "-1s" then -1000000000
  else 0

/-- The scenario configuration: persons A and B, acts intro (2s) and main (1s). -/
def configEx : Config :=
  { Persons := ["A", "B"], Random := false,
    Acts := [⟨"intro", "2s"⟩, ⟨"main", "1s"⟩], Counter := false, Next := true }

/-- The state of the scenario when `main` has made its two calls: person A, act intro, two
seconds remaining, the ticker running. -/
def startEx : State :=
  { currentPersonIndex := 0, currentActIndex := 0, paused := false,
    remaining := 2000000000, currentDuration := 2000000000, ticker := some true,
    tickersMade := 1, personLabel := "A", stageLabel := "intro", nextLabel := "Next: B",
    pauseBtn := "Pause", progressBar := Float64.finite 0,
    totalProgress := Float64.finite (1 / 2), totalProgressSets := 1 }

/-- The state of the scenario after one tick: one of the two seconds of intro is left. -/
def tickedEx : State :=
  { startEx with remaining := 1000000000, progressBar := Float64.finite (1 / 2) }

/-- The state of the scenario after three ticks: person B, act intro. -/
def personBEx : State :=
  { currentPersonIndex := 1, currentActIndex := 0, paused := false,
    remaining := 2000000000, currentDuration := 2000000000, ticker := some true,
    tickersMade := 3, personLabel := "B", stageLabel := "intro", nextLabel := "Next: Last",
    pauseBtn := "Pause", progressBar := Float64.finite 0,
    totalProgress := Float64.finite 1, totalProgressSets := 2 }

/-- The state of the scenario after three taps on "Next": person B on the last act, main. -/
def lastActEx : State :=
  { currentPersonIndex := 1, currentActIndex := 1, paused := false,
    remaining := 1000000000, currentDuration := 1000000000, ticker := some true,
    tickersMade := 4, personLabel := "B", stageLabel := "main", nextLabel := "Next: Last",
    pauseBtn := "Pause", progressBar := Float64.finite 0,
    totalProgress := Float64.finite 1, totalProgressSets := 2 }

/-- The state of the scenario when "Next" has been tapped four times from start-up: both
persons are through, the display reads "Done". -/
def doneEx : State :=
  { currentPersonIndex := 2, currentActIndex := 0, paused := false,
    remaining := 1000000000, currentDuration := 1000000000, ticker := some false,
    tickersMade := 4, personLabel := "Done", stageLabel := "main",
    nextLabel := "Next: Last", pauseBtn := "Pause", progressBar := Float64.finite 0,
    totalProgress := Float64.finite 1, totalProgressSets := 3 }

/-- A configuration whose only act has the duration "0s". -/
def configZero : Config :=
  { Persons := ["A"], Random := false, Acts := [⟨"x", "0s"⟩], Counter := false,
    Next := false }

/-- A configuration whose second act has the negative duration "-1s". -/
def configNeg : Config :=
  { Persons := ["A"], Random := false, Acts := [⟨"x", "1s"⟩, ⟨"y", "-1s"⟩],
    Counter := false, Next := false }

/-- The state `configNeg` starts in: act x armed with its one second. -/
def startNeg : State :=
  { currentPersonIndex := 0, currentActIndex := 0, paused := false,
    remaining := 1000000000, currentDuration := 1000000000, ticker := some true,
    tickersMade := 1, personLabel := "A", stageLabel := "x", nextLabel := "",
    pauseBtn := "Pause", progressBar := Float64.finite 0,
    totalProgress := Float64.finite 1, totalProgressSets := 1 }

/-! ## Intermediate states and invariants -/

/-- The state a tap on "Next" hands to `nextStage`: `paused` cleared, the ticker stopped if
there is one, the caption of the pause button reset. -/
def nextBtnStopped (s : State) : State :=
  { s with paused := false,
           ticker := if s.ticker ≠ none then some false else s.ticker,
           pauseBtn := "Pause" }

/-- The state in which the goroutine calls `updateProgressBar`: one second taken off
`remaining`, clamped at zero. -/
def tickDecremented (s : State) : State :=
  { s with remaining :=
      if toInt64 (s.remaining - Second) < 0 then 0 else toInt64 (s.remaining - Second) }

/-- The invariant of the indices and the aggregate indicator: the total progress is the one
`updateTotalProgressBar` computes for the current person index; in a "Done" state no ticker
runs and the label reads "Done"; the act index is in range when there is an act. -/
def Inv (config : Config) (s : State) : Prop :=
  s.totalProgress
      = SetValue (fdiv ((s.currentPersonIndex + 1 : Nat) : ℚ) (config.Persons.length : ℚ)) ∧
  (config.Persons.length ≤ s.currentPersonIndex →
    s.ticker ≠ some true ∧ s.personLabel = "Done") ∧
  (config.Acts ≠ [] → s.currentActIndex < config.Acts.length)

/-- The invariant of the progress bar: its value is between 0 and 1; while a ticker runs the
duration of the act is not zero; `remaining` is between 0 and a positive duration; the
duration is an `int64`. -/
def ProgInv (s : State) : Prop :=
  s.progressBar.inUnit ∧
  (s.ticker = some true → s.currentDuration ≠ 0) ∧
  (0 < s.currentDuration → 0 ≤ s.remaining ∧ s.remaining ≤ s.currentDuration) ∧
  s.currentDuration < 2 ^ 63

/-! ## How the functions act on a state -/

/-- The wrap into `int64` lands in the `int64` range. -/
theorem toInt64_range (x : Int) : -2 ^ 63 ≤ toInt64 x ∧ toInt64 x < 2 ^ 63 := by
  unfold toInt64
  constructor <;> omega

/-- The wrap is the identity on the `int64` range. -/
theorem toInt64_id (x : Int) (h1 : -2 ^ 63 ≤ x) (h2 : x < 2 ^ 63) : toInt64 x = x := by
  unfold toInt64
  omega

/-- The function `updateNextLabel` never fails and touches the next-person label only. -/
theorem updateNextLabel_eq (config : Config) (s : State) :
    ∃ l, updateNextLabel config s = some { s with nextLabel := l } := by
  unfold updateNextLabel
  split
  · exact ⟨_, rfl⟩
  · split
    · exact ⟨_, rfl⟩
    · rename_i h
      have hlt : s.currentPersonIndex + 1 < config.Persons.length := by omega
      rw [List.getElem?_eq_getElem hlt]
      exact ⟨_, rfl⟩

/-- The "Done" branch of `updateUI`. -/
theorem updateUI_done (parse : String → Int) (config : Config) (s : State)
    (h : config.Persons.length ≤ s.currentPersonIndex) :
    updateUI parse config s = some { s with personLabel := "Done" } := by
  unfold updateUI
  rw [if_pos h]

/-- The other branch of `updateUI`, when the act lookup is in range. -/
theorem updateUI_arm (parse : String → Int) (config : Config) (s : State) (stage : Act)
    (h : s.currentPersonIndex < config.Persons.length)
    (ha : config.Acts[s.currentActIndex]? = some stage) :
    ∃ p l, config.Persons[s.currentPersonIndex]? = some p ∧
      updateUI parse config s = some
        { s with personLabel := p, stageLabel := stage.Name, nextLabel := l,
                 remaining := parseDuration parse stage.Time,
                 currentDuration := parseDuration parse stage.Time,
                 paused := false, ticker := some true, tickersMade := s.tickersMade + 1 } := by
  unfold updateUI
  rw [if_neg (by omega), List.getElem?_eq_getElem h, ha]
  obtain ⟨l, hl⟩ := updateNextLabel_eq config
    { s with personLabel := config.Persons[s.currentPersonIndex], stageLabel := stage.Name,
             remaining := parseDuration parse stage.Time,
             currentDuration := parseDuration parse stage.Time }
  refine ⟨_, l, rfl, ?_⟩
  simp only [hl]
  rfl

/-- The other branch of `updateUI`, when the act lookup is out of range: a panic. -/
theorem updateUI_panic (parse : String → Int) (config : Config) (s : State)
    (h : s.currentPersonIndex < config.Persons.length)
    (ha : config.Acts.length ≤ s.currentActIndex) :
    updateUI parse config s = none := by
  unfold updateUI
  rw [if_neg (by omega), List.getElem?_eq_getElem h, List.getElem?_eq_none ha]

/-- The function `nextStage` when the incremented act index is still in range. -/
theorem nextStage_stay (parse : String → Int) (config : Config) (s : State)
    (h : s.currentActIndex + 1 < config.Acts.length) :
    nextStage parse config s =
      updateUI parse config { s with currentActIndex := s.currentActIndex + 1 } := by
  unfold nextStage
  simp only [ge_iff_le]
  rw [if_neg (by omega)]

/-- The function `nextStage` when the incremented act index has reached the number of
acts. -/
theorem nextStage_wrap (parse : String → Int) (config : Config) (s : State)
    (h : config.Acts.length ≤ s.currentActIndex + 1) :
    nextStage parse config s =
      updateUI parse config (updateTotalProgressBar config
        { s with currentActIndex := 0, currentPersonIndex := s.currentPersonIndex + 1 }) := by
  unfold nextStage
  simp only [ge_iff_le]
  rw [if_pos h]

/-- With at least one act `nextStage` never panics, and its result is the state it hands to
`updateUI` (the indices advanced, the total progress set when the person changes), either
marked "Done" or armed with the act at the new index. -/
theorem nextStage_eq (parse : String → Int) (config : Config) (s : State)
    (hacts : config.Acts ≠ []) :
    ∃ m s1, nextStage parse config s = some s1 ∧ updateUI parse config m = some s1 ∧
      (m = { s with currentActIndex := s.currentActIndex + 1 } ∧
          s.currentActIndex + 1 < config.Acts.length ∨
        m = updateTotalProgressBar config
            { s with currentActIndex := 0, currentPersonIndex := s.currentPersonIndex + 1 } ∧
          config.Acts.length ≤ s.currentActIndex + 1) ∧
      m.currentActIndex < config.Acts.length ∧
      (s1 = { m with personLabel := "Done" } ∧
          config.Persons.length ≤ m.currentPersonIndex ∨
        m.currentPersonIndex < config.Persons.length ∧
          ∃ stage p l, config.Acts[m.currentActIndex]? = some stage ∧
            s1 = { m with personLabel := p, stageLabel := stage.Name, nextLabel := l,
                          remaining := parseDuration parse stage.Time,
                          currentDuration := parseDuration parse stage.Time,
                          paused := false, ticker := some true,
                          tickersMade := m.tickersMade + 1 }) := by
  have hpos : 0 < config.Acts.length := List.length_pos.mpr hacts
  have key : ∀ m : State, m.currentActIndex < config.Acts.length →
      ∃ s1, updateUI parse config m = some s1 ∧
        (s1 = { m with personLabel := "Done" } ∧
            config.Persons.length ≤ m.currentPersonIndex ∨
          m.currentPersonIndex < config.Persons.length ∧
            ∃ stage p l, config.Acts[m.currentActIndex]? = some stage ∧
              s1 = { m with personLabel := p, stageLabel := stage.Name, nextLabel := l,
                            remaining := parseDuration parse stage.Time,
                            currentDuration := parseDuration parse stage.Time,
                            paused := false, ticker := some true,
                            tickersMade := m.tickersMade + 1 }) := by
    intro m hm
    by_cases hd : config.Persons.length ≤ m.currentPersonIndex
    · exact ⟨_, updateUI_done parse config m hd, Or.inl ⟨rfl, hd⟩⟩
    · have hlt : m.currentPersonIndex < config.Persons.length := by omega
      obtain ⟨p, l, _, hu⟩ := updateUI_arm parse config m _ hlt (List.getElem?_eq_getElem hm)
      exact ⟨_, hu, Or.inr ⟨hlt, _, p, l, List.getElem?_eq_getElem hm, rfl⟩⟩
  by_cases h : s.currentActIndex + 1 < config.Acts.length
  · obtain ⟨s1, hu, hs1⟩ := key { s with currentActIndex := s.currentActIndex + 1 } h
    exact ⟨_, s1, by rw [nextStage_stay parse config s h]; exact hu, hu,
      Or.inl ⟨rfl, h⟩, h, hs1⟩
  · have h2 : config.Acts.length ≤ s.currentActIndex + 1 := by omega
    obtain ⟨s1, hu, hs1⟩ := key (updateTotalProgressBar config
      { s with currentActIndex := 0, currentPersonIndex := s.currentPersonIndex + 1 }) hpos
    exact ⟨_, s1, by rw [nextStage_wrap parse config s h2]; exact hu, hu,
      Or.inr ⟨rfl, h2⟩, hpos, hs1⟩

/-- What `updateUI` returns when it returns: either the state marked "Done", or the state
armed with the act at the current index. -/
theorem updateUI_cases (parse : String → Int) (config : Config) (m s1 : State)
    (h : updateUI parse config m = some s1) :
    (config.Persons.length ≤ m.currentPersonIndex ∧ s1 = { m with personLabel := "Done" }) ∨
    (m.currentPersonIndex < config.Persons.length ∧
      ∃ stage p l, config.Acts[m.currentActIndex]? = some stage ∧
        s1 = { m with personLabel := p, stageLabel := stage.Name, nextLabel := l,
                      remaining := parseDuration parse stage.Time,
                      currentDuration := parseDuration parse stage.Time,
                      paused := false, ticker := some true,
                      tickersMade := m.tickersMade + 1 }) := by
  by_cases hd : config.Persons.length ≤ m.currentPersonIndex
  · rw [updateUI_done parse config m hd] at h
    cases h
    exact Or.inl ⟨hd, rfl⟩
  · have hlt : m.currentPersonIndex < config.Persons.length := by omega
    by_cases ha : m.currentActIndex < config.Acts.length
    · obtain ⟨p, l, _, hu⟩ := updateUI_arm parse config m _ hlt (List.getElem?_eq_getElem ha)
      rw [hu] at h
      cases h
      exact Or.inr ⟨hlt, _, p, l, List.getElem?_eq_getElem ha, rfl⟩
    · rw [updateUI_panic parse config m hlt (by omega)] at h
      cases h

/-- What `nextStage` returns when it returns, in its four cases: the act index moves on or
wraps to 0 with the person index incremented (and the total progress set), and the state is
then marked "Done" or armed. -/
theorem nextStage_cases (parse : String → Int) (config : Config) (t s1 : State)
    (h : nextStage parse config t = some s1) :
    (t.currentActIndex + 1 < config.Acts.length ∧
      config.Persons.length ≤ t.currentPersonIndex ∧
      s1 = { t with currentActIndex := t.currentActIndex + 1, personLabel := "Done" }) ∨
    (t.currentActIndex + 1 < config.Acts.length ∧
      t.currentPersonIndex < config.Persons.length ∧
      ∃ stage p l, config.Acts[t.currentActIndex + 1]? = some stage ∧
        s1 = { t with currentActIndex := t.currentActIndex + 1,
                      personLabel := p, stageLabel := stage.Name, nextLabel := l,
                      remaining := parseDuration parse stage.Time,
                      currentDuration := parseDuration parse stage.Time,
                      paused := false, ticker := some true,
                      tickersMade := t.tickersMade + 1 }) ∨
    (config.Acts.length ≤ t.currentActIndex + 1 ∧
      config.Persons.length ≤ t.currentPersonIndex + 1 ∧
      s1 = { t with currentActIndex := 0, currentPersonIndex := t.currentPersonIndex + 1,
                    totalProgress := SetValue (fdiv ((t.currentPersonIndex + 1 + 1 : Nat) : ℚ)
                      (config.Persons.length : ℚ)),
                    totalProgressSets := t.totalProgressSets + 1,
                    personLabel := "Done" }) ∨
    (config.Acts.length ≤ t.currentActIndex + 1 ∧
      t.currentPersonIndex + 1 < config.Persons.length ∧
      ∃ stage p l, config.Acts[0]? = some stage ∧
        s1 = { t with currentActIndex := 0, currentPersonIndex := t.currentPersonIndex + 1,
                      totalProgress := SetValue (fdiv ((t.currentPersonIndex + 1 + 1 : Nat) : ℚ)
                        (config.Persons.length : ℚ)),
                      totalProgressSets := t.totalProgressSets + 1,
                      personLabel := p, stageLabel := stage.Name, nextLabel := l,
                      remaining := parseDuration parse stage.Time,
                      currentDuration := parseDuration parse stage.Time,
                      paused := false, ticker := some true,
                      tickersMade := t.tickersMade + 1 }) := by
  by_cases hlt : t.currentActIndex + 1 < config.Acts.length
  · rw [nextStage_stay parse config t hlt] at h
    rcases updateUI_cases parse config _ s1 h with ⟨hd, rfl⟩ | ⟨hp, stage, p, l, hst, rfl⟩
    · exact Or.inl ⟨hlt, hd, rfl⟩
    · exact Or.inr (Or.inl ⟨hlt, hp, stage, p, l, hst, rfl⟩)
  · have hge : config.Acts.length ≤ t.currentActIndex + 1 := by omega
    rw [nextStage_wrap parse config t hge] at h
    rcases updateUI_cases parse config _ s1 h with ⟨hd, rfl⟩ | ⟨hp, stage, p, l, hst, rfl⟩
    · exact Or.inr (Or.inr (Or.inl ⟨hge, hd, rfl⟩))
    · exact Or.inr (Or.inr (Or.inr ⟨hge, hp, stage, p, l, hst, rfl⟩))

/-- With at least one act `nextStage` never panics. -/
theorem nextStage_total (parse : String → Int) (config : Config) (t : State)
    (hacts : config.Acts ≠ []) : ∃ s1, nextStage parse config t = some s1 := by
  obtain ⟨_, s1, h, _⟩ := nextStage_eq parse config t hacts
  exact ⟨s1, h⟩

/-- The handler of "Next" is `nextStage` run from `nextBtnStopped`. -/
theorem nextBtnTapped_eq (parse : String → Int) (config : Config) (s : State) :
    nextBtnTapped parse config s = nextStage parse config (nextBtnStopped s) := by
  unfold nextBtnTapped nextBtnStopped
  by_cases ht : s.ticker = none <;> simp [ht]

/-- No ticker is running in the state a tap on "Next" hands to `nextStage`. -/
theorem nextBtnStopped_ticker (s : State) : (nextBtnStopped s).ticker ≠ some true := by
  unfold nextBtnStopped
  by_cases ht : s.ticker = none <;> simp [ht]

/-- The body of the ticker loop in terms of `tickDecremented`. -/
theorem tick_eq (parse : String → Int) (config : Config) (s : State) :
    tick parse config s =
      if s.ticker ≠ some true then some s
      else if s.paused then some s
      else if (tickDecremented s).remaining ≤ 0 then
        nextStage parse config
          { updateProgressBar (tickDecremented s) with ticker := some false }
      else some (updateProgressBar (tickDecremented s)) := rfl

/-- What a delivery of the ticker does, in its three cases: nothing (no running ticker, or
paused), the decrement alone, or the decrement followed by `nextStage` with the ticker
stopped. -/
theorem tick_cases (parse : String → Int) (config : Config) (s s1 : State)
    (h : tick parse config s = some s1) :
    ((s.ticker ≠ some true ∨ s.paused = true) ∧ s1 = s) ∨
    (s.ticker = some true ∧ s.paused = false ∧ 0 < (tickDecremented s).remaining ∧
      s1 = updateProgressBar (tickDecremented s)) ∨
    (s.ticker = some true ∧ s.paused = false ∧ (tickDecremented s).remaining ≤ 0 ∧
      nextStage parse config
        { updateProgressBar (tickDecremented s) with ticker := some false } = some s1) := by
  rw [tick_eq] at h
  by_cases ht : s.ticker ≠ some true
  · rw [if_pos ht] at h
    cases h
    exact Or.inl ⟨Or.inl ht, rfl⟩
  · rw [if_neg ht] at h
    by_cases hp : s.paused = true
    · rw [if_pos hp] at h
      cases h
      exact Or.inl ⟨Or.inr hp, rfl⟩
    · rw [if_neg hp] at h
      have ht1 : s.ticker = some true := by simpa using ht
      have hp1 : s.paused = false := by simpa using hp
      by_cases hr : (tickDecremented s).remaining ≤ 0
      · rw [if_pos hr] at h
        exact Or.inr (Or.inr ⟨ht1, hp1, hr, h⟩)
      · rw [if_neg hr] at h
        cases h
        exact Or.inr (Or.inl ⟨ht1, hp1, by omega, rfl⟩)

/-! ## The transitions one at a time -/

/-- C9: with an empty list of persons, whatever the acts, the `updateUI` that `main` calls
first takes the "Done" branch: the person label reads "Done", no ticker is created, the
result does not depend on the acts (it is the same with no act at all), and `remaining` and
`currentDuration` keep their initial values; nothing but the label changes. -/
theorem updateUI_no_persons (parse : String → Int) (config : Config)
    (h : config.Persons = []) :
    ∃ s, updateUI parse config init = some s ∧
      s.personLabel = "Done" ∧
      s.ticker = none ∧ s.tickersMade = 0 ∧
      updateUI parse { config with Acts := [] } init = some s ∧
      s.remaining = init.remaining ∧ s.currentDuration = init.currentDuration ∧
      s = { init with personLabel := "Done" } := by
  have h1 : config.Persons.length ≤ init.currentPersonIndex := by simp [h]
  have h2 : ({ config with Acts := [] } : Config).Persons.length ≤ init.currentPersonIndex := by
    simp [h]
  exact ⟨_, updateUI_done parse config init h1, rfl, rfl, rfl,
    updateUI_done parse _ init h2, rfl, rfl, rfl⟩

/-- C9 at the configuration with no person and the two acts of the scenario. -/
theorem updateUI_no_persons_witness :
    ({ configEx with Persons := [] } : Config).Persons = [] ∧
    ∃ s, updateUI parseEx { configEx with Persons := [] } init = some s ∧
      s.personLabel = "Done" ∧
      s.ticker = none ∧ s.tickersMade = 0 ∧
      updateUI parseEx { ({ configEx with Persons := [] } : Config) with Acts := [] } init
        = some s ∧
      s.remaining = init.remaining ∧ s.currentDuration = init.currentDuration ∧
      s = { init with personLabel := "Done" } :=
  ⟨rfl, updateUI_no_persons parseEx { configEx with Persons := [] } rfl⟩

/-- C7: while `paused` is set, a delivery of the ticker changes nothing: the state after the
tick is the state before it, so the indices, `remaining`, `currentDuration` and `paused` are
unchanged, `nextStage` has not run and the ticker is as it was. -/
theorem tick_paused (parse : String → Int) (config : Config) (s : State)
    (h : s.paused = true) :
    tick parse config s = some s := by
  unfold tick
  by_cases ht : s.ticker ≠ some true
  · rw [if_pos ht]
  · rw [if_neg ht, if_pos h]

/-- C6: two taps on the pause button in a row give back the state they started from, but for
the caption of the button, which is then the one that goes with `paused`: `paused`, the
indices, `remaining`, `currentDuration`, the ticker and the progress values are as before,
and so is the caption whenever it agreed with `paused` before the two taps. -/
theorem pauseBtnTapped_twice (s : State) :
    (pauseBtnTapped (pauseBtnTapped s)).paused = s.paused ∧
    pauseBtnTapped (pauseBtnTapped s)
      = { s with pauseBtn := if s.paused then "Resume" else "Pause" } ∧
    (s.pauseBtn = (if s.paused then "Resume" else "Pause") →
      pauseBtnTapped (pauseBtnTapped s) = s) := by
  have key : pauseBtnTapped (pauseBtnTapped s)
      = { s with pauseBtn := if s.paused then "Resume" else "Pause" } := by
    cases s with
    | mk pi ai paused rem cd tk tm pl sl nl pb prog tot sets =>
      cases paused <;> rfl
  refine ⟨by rw [key], key, fun hc => ?_⟩
  rw [key, ← hc]

/-- C6 at the initial state, whose caption "Pause" agrees with `paused = false`. -/
theorem pauseBtnTapped_twice_witness :
    pauseBtnTapped (pauseBtnTapped init) = init :=
  (pauseBtnTapped_twice init).2.2 rfl

/-- C7 in the scenario, paused right after start-up with the ticker running. -/
theorem tick_paused_witness :
    (pauseBtnTapped startEx).paused = true ∧ (pauseBtnTapped startEx).ticker = some true ∧
    tick parseEx configEx (pauseBtnTapped startEx) = some (pauseBtnTapped startEx) :=
  ⟨rfl, rfl, tick_paused parseEx configEx (pauseBtnTapped startEx) rfl⟩

/-- When `nextStage` is entered with no ticker running and returns a "Done" state, no ticker
runs in that state and the label reads "Done". -/
theorem nextStage_done_stopped (parse : String → Int) (config : Config) (t s1 : State)
    (htk : t.ticker ≠ some true) (h : nextStage parse config t = some s1)
    (hd : config.Persons.length ≤ s1.currentPersonIndex) :
    s1.personLabel = "Done" ∧ s1.ticker ≠ some true := by
  rcases nextStage_cases parse config t s1 h with
    ⟨_, _, rfl⟩ | ⟨_, hlt, _, _, _, _, rfl⟩ | ⟨_, _, rfl⟩ | ⟨_, hlt, _, _, _, _, rfl⟩
  · exact ⟨rfl, htk⟩
  · exact absurd hd (by simpa using hlt)
  · exact ⟨rfl, htk⟩
  · exact absurd hd (by simpa using hlt)

/-- C1: with at least one act and a person index below the number of persons, `nextStage`
returns a state in which the act index is one more and the person index the same when the
incremented act index is below the number of acts, and the act index is 0 and the person
index one more otherwise; when the new person index is below the number of persons,
`remaining` and `currentDuration` are the duration of the act at the new act index, `paused`
is false and a new ticker is running; when it equals the number of persons the person label
is "Done" and no ticker is armed: `nextStage` creates none and leaves the ticker as it found
it, so none runs when none ran on entry; and on every path on which the program calls
`nextStage` from that state, the ticker loop and the handler of "Next", which both stop the
ticker first, the "Done" state comes with the label "Done" and no ticker running. -/
theorem nextStage_spec (parse : String → Int) (config : Config) (s : State)
    (hacts : config.Acts ≠ [])
    (hp : s.currentPersonIndex < config.Persons.length) :
    (∃ s1, nextStage parse config s = some s1 ∧
      (s.currentActIndex + 1 < config.Acts.length →
        s1.currentActIndex = s.currentActIndex + 1 ∧
        s1.currentPersonIndex = s.currentPersonIndex) ∧
      (¬ s.currentActIndex + 1 < config.Acts.length →
        s1.currentActIndex = 0 ∧ s1.currentPersonIndex = s.currentPersonIndex + 1) ∧
      (s1.currentPersonIndex < config.Persons.length →
        ∃ act, config.Acts[s1.currentActIndex]? = some act ∧
          s1.remaining = parseDuration parse act.Time ∧
          s1.currentDuration = parseDuration parse act.Time ∧
          s1.paused = false ∧ s1.ticker = some true ∧
          s1.tickersMade = s.tickersMade + 1) ∧
      (s1.currentPersonIndex = config.Persons.length →
        s1.personLabel = "Done" ∧ s1.tickersMade = s.tickersMade ∧
        s1.ticker = s.ticker ∧ (s.ticker ≠ some true → s1.ticker ≠ some true))) ∧
    (∀ e s2, step parse config e s = some s2 →
      s2.currentPersonIndex = config.Persons.length →
      s2.personLabel = "Done" ∧ s2.ticker ≠ some true) := by
  constructor
  · obtain ⟨m, s1, hn, _, hm, _, hs1⟩ := nextStage_eq parse config s hacts
    refine ⟨s1, hn, ?_, ?_, ?_, ?_⟩
    · intro hlt
      rcases hm with ⟨rfl, _⟩ | ⟨_, hge⟩
      · rcases hs1 with ⟨rfl, _⟩ | ⟨_, _, _, _, _, rfl⟩ <;> exact ⟨rfl, rfl⟩
      · omega
    · intro hge
      rcases hm with ⟨_, hlt⟩ | ⟨rfl, _⟩
      · omega
      · rcases hs1 with ⟨rfl, _⟩ | ⟨_, _, _, _, _, rfl⟩ <;> exact ⟨rfl, rfl⟩
    · intro hlt
      rcases hs1 with ⟨rfl, hd⟩ | ⟨_, stage, _, _, hst, rfl⟩
      · exact absurd hlt (by simpa using hd)
      · refine ⟨stage, hst, rfl, rfl, rfl, rfl, ?_⟩
        rcases hm with ⟨rfl, _⟩ | ⟨rfl, _⟩ <;> rfl
    · intro heq
      rcases hs1 with ⟨rfl, _⟩ | ⟨hlt, _, _, _, _, rfl⟩
      · rcases hm with ⟨rfl, _⟩ | ⟨rfl, _⟩ <;> exact ⟨rfl, rfl, rfl, fun h => h⟩
      · exact absurd heq (by simpa using Nat.ne_of_lt hlt)
  · intro e s2 hs2 hd
    cases e with
    | tick =>
      rcases tick_cases parse config s s2 hs2 with ⟨_, rfl⟩ | ⟨_, _, _, rfl⟩ | ⟨_, _, _, hn⟩
      · omega
      · have hsame : (updateProgressBar (tickDecremented s)).currentPersonIndex
            = s.currentPersonIndex := rfl
        omega
      · exact nextStage_done_stopped parse config
          { updateProgressBar (tickDecremented s) with ticker := some false } s2
          (by simp) hn (by omega)
    | next =>
      simp only [step] at hs2
      rw [nextBtnTapped_eq] at hs2
      exact nextStage_done_stopped parse config (nextBtnStopped s) s2
        (nextBtnStopped_ticker s) hs2 (by omega)
    | pause =>
      simp only [step] at hs2
      cases hs2
      have hsame : (pauseBtnTapped s).currentPersonIndex = s.currentPersonIndex := by
        cases hpz : s.paused <;> simp [pauseBtnTapped, hpz]
      omega

/-- C1 in the scenario on the last act of the last person (person B, act main), a state
reached by three taps on "Next": `nextStage` gives the person index 2 and the label "Done",
and the tap on "Next" that calls it ends in `doneEx`, where no ticker runs. -/
theorem nextStage_spec_witness :
    run parseEx configEx [Event.next, Event.next, Event.next] = some lastActEx ∧
    step parseEx configEx Event.next lastActEx = some doneEx ∧
    doneEx.ticker = some false ∧
    configEx.Acts ≠ [] ∧ lastActEx.currentPersonIndex < configEx.Persons.length ∧
    (∃ s1, nextStage parseEx configEx lastActEx = some s1 ∧
      (lastActEx.currentActIndex + 1 < configEx.Acts.length →
        s1.currentActIndex = lastActEx.currentActIndex + 1 ∧
        s1.currentPersonIndex = lastActEx.currentPersonIndex) ∧
      (¬ lastActEx.currentActIndex + 1 < configEx.Acts.length →
        s1.currentActIndex = 0 ∧ s1.currentPersonIndex = lastActEx.currentPersonIndex + 1) ∧
      (s1.currentPersonIndex < configEx.Persons.length →
        ∃ act, configEx.Acts[s1.currentActIndex]? = some act ∧
          s1.remaining = parseDuration parseEx act.Time ∧
          s1.currentDuration = parseDuration parseEx act.Time ∧
          s1.paused = false ∧ s1.ticker = some true ∧
          s1.tickersMade = lastActEx.tickersMade + 1) ∧
      (s1.currentPersonIndex = configEx.Persons.length →
        s1.personLabel = "Done" ∧ s1.tickersMade = lastActEx.tickersMade ∧
        s1.ticker = lastActEx.ticker ∧
        (lastActEx.ticker ≠ some true → s1.ticker ≠ some true))) ∧
    (∀ e s2, step parseEx configEx e lastActEx = some s2 →
      s2.currentPersonIndex = configEx.Persons.length →
      s2.personLabel = "Done" ∧ s2.ticker ≠ some true) :=
  ⟨by decide!, by decide!, rfl, by decide, by decide,
    nextStage_spec parseEx configEx lastActEx (by decide) (by decide)⟩

/-- The indices after `nextStage` depend on the indices before it only. -/
theorem nextStage_indices (parse : String → Int) (config : Config) (s t s1 t1 : State)
    (hi : t.currentPersonIndex = s.currentPersonIndex ∧ t.currentActIndex = s.currentActIndex)
    (hs : nextStage parse config s = some s1) (ht : nextStage parse config t = some t1) :
    t1.currentPersonIndex = s1.currentPersonIndex ∧ t1.currentActIndex = s1.currentActIndex ∧
    (s.currentActIndex + 1 < config.Acts.length →
      s1.currentPersonIndex = s.currentPersonIndex ∧
      s1.currentActIndex = s.currentActIndex + 1) ∧
    (config.Acts.length ≤ s.currentActIndex + 1 →
      s1.currentPersonIndex = s.currentPersonIndex + 1 ∧ s1.currentActIndex = 0) := by
  have frame : ∀ m r : State, updateUI parse config m = some r →
      r.currentPersonIndex = m.currentPersonIndex ∧ r.currentActIndex = m.currentActIndex := by
    intro m r hr
    by_cases hd : config.Persons.length ≤ m.currentPersonIndex
    · rw [updateUI_done parse config m hd] at hr
      cases hr
      exact ⟨rfl, rfl⟩
    · have hlt : m.currentPersonIndex < config.Persons.length := by omega
      by_cases ha : m.currentActIndex < config.Acts.length
      · obtain ⟨p, l, _, hu⟩ :=
          updateUI_arm parse config m _ hlt (List.getElem?_eq_getElem ha)
        rw [hu] at hr
        cases hr
        exact ⟨rfl, rfl⟩
      · rw [updateUI_panic parse config m hlt (by omega)] at hr
        cases hr
  obtain ⟨hpi, hai⟩ := hi
  by_cases h : s.currentActIndex + 1 < config.Acts.length
  · rw [nextStage_stay parse config s h] at hs
    rw [nextStage_stay parse config t (by omega)] at ht
    obtain ⟨a1, a2⟩ := frame _ _ hs
    obtain ⟨b1, b2⟩ := frame _ _ ht
    simp only at a1 a2 b1 b2
    refine ⟨by omega, by omega, fun _ => ⟨a1, a2⟩, fun _ => by omega⟩
  · rw [nextStage_wrap parse config s (by omega)] at hs
    rw [nextStage_wrap parse config t (by omega)] at ht
    obtain ⟨a1, a2⟩ := frame _ _ hs
    obtain ⟨b1, b2⟩ := frame _ _ ht
    simp only [updateTotalProgressBar] at a1 a2 b1 b2
    refine ⟨by omega, by omega, fun _ => by omega, fun _ => ⟨a1, a2⟩⟩

/-- C5: a tap on "Next", whether `paused` was set or not, never panics when there is an act;
and whenever it returns a state that is not "Done", that state has exactly the indices
`nextStage` gives from the state the tap started in, `paused` is false, `nextStage` has run
from a state whose ticker was not running, a new ticker has been created and runs, and
`remaining` and `currentDuration` are the whole duration of the act at the new index. -/
theorem nextBtnTapped_spec (parse : String → Int) (config : Config) (s : State) :
    (config.Acts ≠ [] → ∃ s1, nextBtnTapped parse config s = some s1) ∧
    ∀ s1, nextBtnTapped parse config s = some s1 →
      s1.currentPersonIndex < config.Persons.length →
      (∃ a, nextStage parse config s = some a ∧
        s1.currentPersonIndex = a.currentPersonIndex ∧
        s1.currentActIndex = a.currentActIndex) ∧
      s1.paused = false ∧
      (∃ m, m.ticker ≠ some true ∧ m.tickersMade = s.tickersMade ∧
        nextStage parse config m = some s1) ∧
      s1.ticker = some true ∧ s1.tickersMade = s.tickersMade + 1 ∧
      ∃ act, config.Acts[s1.currentActIndex]? = some act ∧
        s1.remaining = parseDuration parse act.Time ∧
        s1.currentDuration = parseDuration parse act.Time := by
  constructor
  · intro hacts
    rw [nextBtnTapped_eq]
    exact nextStage_total parse config _ hacts
  · intro s1 hs1 hnd
    rw [nextBtnTapped_eq] at hs1
    have hi : (nextBtnStopped s).currentPersonIndex = s.currentPersonIndex ∧
        (nextBtnStopped s).currentActIndex = s.currentActIndex := ⟨rfl, rfl⟩
    have hmid : ∃ m : State, m.ticker ≠ some true ∧ m.tickersMade = s.tickersMade ∧
        nextStage parse config m = some s1 :=
      ⟨nextBtnStopped s, nextBtnStopped_ticker s, rfl, hs1⟩
    have hidx : config.Acts ≠ [] → ∃ a, nextStage parse config s = some a ∧
        s1.currentPersonIndex = a.currentPersonIndex ∧
        s1.currentActIndex = a.currentActIndex := by
      intro hacts
      obtain ⟨a, ha⟩ := nextStage_total parse config s hacts
      obtain ⟨e1, e2, _, _⟩ :=
        nextStage_indices parse config s (nextBtnStopped s) a s1 hi ha hs1
      exact ⟨a, ha, e1, e2⟩
    rcases nextStage_cases parse config _ s1 hs1 with
      ⟨_, hd, rfl⟩ | ⟨hlt, _, stage, p, l, hst, rfl⟩ | ⟨_, hd, rfl⟩ |
      ⟨_, _, stage, p, l, hst, rfl⟩
    · exact absurd hnd (by simpa using hd)
    · have hacts : config.Acts ≠ [] := by
        intro he
        simp [he] at hlt
      exact ⟨hidx hacts, rfl, hmid, rfl, rfl, stage, hst, rfl, rfl⟩
    · exact absurd hnd (by simpa using hd)
    · have hacts : config.Acts ≠ [] := by
        intro he
        simp [he] at hst
      exact ⟨hidx hacts, rfl, hmid, rfl, rfl, stage, hst, rfl, rfl⟩

/-- The scenario starts in `startEx`. -/
theorem start_configEx : start parseEx configEx = some startEx := by decide!

/-- C5 in the scenario: "Next" right after start-up gives person A, act main, one second
remaining and nothing taken off. -/
theorem nextBtnTapped_spec_witness :
    ∃ s1, nextBtnTapped parseEx configEx startEx = some s1 ∧
      s1.currentPersonIndex < configEx.Persons.length ∧
      s1.personLabel = "A" ∧ s1.stageLabel = "main" ∧ s1.remaining = 1000000000 ∧
      ((∃ a, nextStage parseEx configEx startEx = some a ∧
        s1.currentPersonIndex = a.currentPersonIndex ∧
        s1.currentActIndex = a.currentActIndex) ∧
      s1.paused = false ∧
      (∃ m, m.ticker ≠ some true ∧ m.tickersMade = startEx.tickersMade ∧
        nextStage parseEx configEx m = some s1) ∧
      s1.ticker = some true ∧ s1.tickersMade = startEx.tickersMade + 1 ∧
      ∃ act, configEx.Acts[s1.currentActIndex]? = some act ∧
        s1.remaining = parseDuration parseEx act.Time ∧
        s1.currentDuration = parseDuration parseEx act.Time) :=
  ⟨{ startEx with currentActIndex := 1, remaining := 1000000000,
                  currentDuration := 1000000000, stageLabel := "main", tickersMade := 2 },
    by decide!, by decide, rfl, rfl, rfl,
    (nextBtnTapped_spec parseEx configEx startEx).2 _ (by decide!) (by decide)⟩

/-! ## Invariants of the reachable states -/

/-- The function `nextStage` establishes `Inv` when it is entered with the total progress
up to date and no ticker running. -/
theorem Inv_nextStage (parse : String → Int) (config : Config) (t s1 : State)
    (htot : t.totalProgress
      = SetValue (fdiv ((t.currentPersonIndex + 1 : Nat) : ℚ) (config.Persons.length : ℚ)))
    (htk : t.ticker ≠ some true)
    (h : nextStage parse config t = some s1) : Inv config s1 := by
  rcases nextStage_cases parse config t s1 h with
    ⟨hlt, hd, rfl⟩ | ⟨hlt, hp, stage, p, l, hst, rfl⟩ | ⟨hge, hd, rfl⟩ |
    ⟨hge, hp, stage, p, l, hst, rfl⟩
  · exact ⟨htot, fun _ => ⟨htk, rfl⟩, fun _ => hlt⟩
  · refine ⟨htot, fun hd => ?_, fun _ => hlt⟩
    simp only at hd
    omega
  · refine ⟨rfl, fun _ => ⟨htk, rfl⟩, fun hacts => ?_⟩
    exact List.length_pos.mpr hacts
  · refine ⟨rfl, fun hd => ?_, fun hacts => ?_⟩
    · simp only at hd
      omega
    · exact List.length_pos.mpr hacts

/-- The state after start-up satisfies `Inv`. -/
theorem Inv_start (parse : String → Int) (config : Config) (s : State)
    (h : start parse config = some s) : Inv config s := by
  unfold start at h
  cases hu : updateUI parse config init with
  | none => rw [hu] at h; cases h
  | some u =>
    rw [hu] at h
    cases h
    rcases updateUI_cases parse config init u hu with
      ⟨_, rfl⟩ | ⟨hp, stage, p, l, hst, rfl⟩
    · refine ⟨rfl, fun _ => ⟨?_, rfl⟩, fun hacts => ?_⟩
      · simp [updateTotalProgressBar, init]
      · exact List.length_pos.mpr hacts
    · refine ⟨rfl, fun hd => ?_, fun hacts => ?_⟩
      · simp only [updateTotalProgressBar] at hd
        omega
      · exact List.length_pos.mpr hacts

/-- Every event preserves `Inv`. -/
theorem Inv_step (parse : String → Int) (config : Config) (e : Event) (s s1 : State)
    (hinv : Inv config s) (h : step parse config e s = some s1) : Inv config s1 := by
  obtain ⟨htot, hdone, hact⟩ := hinv
  cases e with
  | tick =>
    rcases tick_cases parse config s s1 h with ⟨_, rfl⟩ | ⟨_, _, _, rfl⟩ | ⟨_, _, _, hn⟩
    · exact ⟨htot, hdone, hact⟩
    · exact ⟨htot, hdone, hact⟩
    · exact Inv_nextStage parse config
        { updateProgressBar (tickDecremented s) with ticker := some false } s1 htot
        (by simp) hn
  | next =>
    simp only [step] at h
    rw [nextBtnTapped_eq] at h
    exact Inv_nextStage parse config (nextBtnStopped s) s1 htot (nextBtnStopped_ticker s) h
  | pause =>
    simp only [step] at h
    cases h
    refine ⟨?_, ?_, ?_⟩
    · cases hp : s.paused <;> simp [pauseBtnTapped, hp, htot]
    · cases hp : s.paused <;> simpa [pauseBtnTapped, hp] using hdone
    · cases hp : s.paused <;> simpa [pauseBtnTapped, hp] using hact

/-- A run from a state satisfying `Inv` ends in one. -/
theorem Inv_runFrom (parse : String → Int) (config : Config) (es : List Event) :
    ∀ s s1 : State, Inv config s → runFrom parse config es s = some s1 → Inv config s1 := by
  induction es with
  | nil =>
    intro s s1 hinv h
    simp only [runFrom] at h
    cases h
    exact hinv
  | cons e es ih =>
    intro s s1 hinv h
    simp only [runFrom] at h
    cases hs : step parse config e s with
    | none => rw [hs] at h; cases h
    | some m =>
      rw [hs] at h
      exact ih m s1 (Inv_step parse config e s m hinv hs) h

/-- Every reachable state satisfies `Inv`. -/
theorem Inv_run (parse : String → Int) (config : Config) (es : List Event) (s : State)
    (h : run parse config es = some s) : Inv config s := by
  unfold run at h
  cases hs : start parse config with
  | none => rw [hs] at h; cases h
  | some m =>
    rw [hs] at h
    exact Inv_runFrom parse config es m s (Inv_start parse config m hs) h

/-- With at least one act start-up does not panic. -/
theorem start_total (parse : String → Int) (config : Config) (hacts : config.Acts ≠ []) :
    ∃ s, start parse config = some s := by
  unfold start
  by_cases hd : config.Persons.length ≤ init.currentPersonIndex
  · rw [updateUI_done parse config init hd]
    exact ⟨_, rfl⟩
  · have ha : init.currentActIndex < config.Acts.length := List.length_pos.mpr hacts
    obtain ⟨p, l, _, hu⟩ :=
      updateUI_arm parse config init _ (by omega) (List.getElem?_eq_getElem ha)
    rw [hu]
    exact ⟨_, rfl⟩

/-- With at least one act no event panics. -/
theorem step_total (parse : String → Int) (config : Config) (hacts : config.Acts ≠ [])
    (e : Event) (s : State) : ∃ s1, step parse config e s = some s1 := by
  cases e with
  | tick =>
    simp only [step]
    rw [tick_eq]
    split_ifs
    · exact ⟨_, rfl⟩
    · exact ⟨_, rfl⟩
    · exact nextStage_total parse config _ hacts
    · exact ⟨_, rfl⟩
  | next =>
    simp only [step]
    rw [nextBtnTapped_eq]
    exact nextStage_total parse config _ hacts
  | pause => exact ⟨_, rfl⟩

/-- With at least one act no run panics. -/
theorem run_total (parse : String → Int) (config : Config) (hacts : config.Acts ≠ [])
    (es : List Event) : ∃ s, run parse config es = some s := by
  have hfrom : ∀ (es : List Event) (s : State), ∃ s1, runFrom parse config es s = some s1 := by
    intro es
    induction es with
    | nil => intro s; exact ⟨s, rfl⟩
    | cons e es ih =>
      intro s
      obtain ⟨m, hm⟩ := step_total parse config hacts e s
      obtain ⟨s1, hs1⟩ := ih m
      exact ⟨s1, by simp only [runFrom]; rw [hm]; exact hs1⟩
  obtain ⟨m, hm⟩ := start_total parse config hacts
  obtain ⟨s1, hs1⟩ := hfrom es m
  exact ⟨s1, by unfold run; rw [hm]; exact hs1⟩

/-- The function `nextStage` either keeps the person index, and then leaves the aggregate
indicator alone, or increments it, and then resets the act index and sets the indicator
once. -/
theorem nextStage_person (parse : String → Int) (config : Config) (t s1 : State)
    (h : nextStage parse config t = some s1) :
    (s1.currentPersonIndex = t.currentPersonIndex ∧
      s1.totalProgressSets = t.totalProgressSets ∧ s1.totalProgress = t.totalProgress) ∨
    (s1.currentPersonIndex = t.currentPersonIndex + 1 ∧ s1.currentActIndex = 0 ∧
      s1.totalProgressSets = t.totalProgressSets + 1) := by
  rcases nextStage_cases parse config t s1 h with
    ⟨_, _, rfl⟩ | ⟨_, _, _, _, _, _, rfl⟩ | ⟨_, _, rfl⟩ | ⟨_, _, _, _, _, _, rfl⟩
  · exact Or.inl ⟨rfl, rfl, rfl⟩
  · exact Or.inl ⟨rfl, rfl, rfl⟩
  · exact Or.inr ⟨rfl, rfl, rfl⟩
  · exact Or.inr ⟨rfl, rfl, rfl⟩

/-- Every event either keeps the person index, and then leaves the aggregate indicator
alone, or increments it, and then resets the act index and sets the indicator once. -/
theorem step_person (parse : String → Int) (config : Config) (e : Event) (s s1 : State)
    (h : step parse config e s = some s1) :
    (s1.currentPersonIndex = s.currentPersonIndex ∧
      s1.totalProgressSets = s.totalProgressSets ∧ s1.totalProgress = s.totalProgress) ∨
    (s1.currentPersonIndex = s.currentPersonIndex + 1 ∧ s1.currentActIndex = 0 ∧
      s1.totalProgressSets = s.totalProgressSets + 1) := by
  cases e with
  | tick =>
    rcases tick_cases parse config s s1 h with ⟨_, rfl⟩ | ⟨_, _, _, rfl⟩ | ⟨_, _, _, hn⟩
    · exact Or.inl ⟨rfl, rfl, rfl⟩
    · exact Or.inl ⟨rfl, rfl, rfl⟩
    · exact nextStage_person parse config
        { updateProgressBar (tickDecremented s) with ticker := some false } s1 hn
  | next =>
    simp only [step] at h
    rw [nextBtnTapped_eq] at h
    exact nextStage_person parse config (nextBtnStopped s) s1 h
  | pause =>
    simp only [step] at h
    cases h
    cases hp : s.paused <;> simp [pauseBtnTapped, hp]

/-- C10: with at least one act, no run from start-up through ticks, taps on "Next" and taps
on the pause button panics, so no slice lookup of `updateUI` or `updateNextLabel` is out of
range; in the state reached the act index is below the number of acts, the lookups
`Persons[currentPersonIndex]`, `Acts[currentActIndex]` and `Persons[currentPersonIndex+1]`
are in range where the code makes them, and every further event returns a state whose act
index is again in range and is 0 if the event changed the person index. -/
theorem run_indices_in_range (parse : String → Int) (config : Config) (es : List Event)
    (hacts : config.Acts ≠ []) :
    ∃ s, run parse config es = some s ∧
      s.currentActIndex < config.Acts.length ∧
      (s.currentPersonIndex < config.Persons.length →
        (∃ p, config.Persons[s.currentPersonIndex]? = some p) ∧
        (∃ a, config.Acts[s.currentActIndex]? = some a)) ∧
      (s.currentPersonIndex + 1 < config.Persons.length →
        ∃ p, config.Persons[s.currentPersonIndex + 1]? = some p) ∧
      ∀ e, ∃ s1, step parse config e s = some s1 ∧
        s1.currentActIndex < config.Acts.length ∧
        (s1.currentPersonIndex ≠ s.currentPersonIndex → s1.currentActIndex = 0) := by
  obtain ⟨s, hs⟩ := run_total parse config hacts es
  have hinv := Inv_run parse config es s hs
  have hai := hinv.2.2 hacts
  refine ⟨s, hs, hai, fun hp => ⟨⟨_, List.getElem?_eq_getElem hp⟩,
    ⟨_, List.getElem?_eq_getElem hai⟩⟩, fun hp => ⟨_, List.getElem?_eq_getElem hp⟩, ?_⟩
  intro e
  obtain ⟨s1, hs1⟩ := step_total parse config hacts e s
  refine ⟨s1, hs1, (Inv_step parse config e s s1 hinv hs1).2.2 hacts, fun hne => ?_⟩
  rcases step_person parse config e s s1 hs1 with ⟨hsame, _⟩ | ⟨_, h0, _⟩
  · exact absurd hsame hne
  · exact h0

/-- C10 in the scenario, after a tick, a pause and a tap on "Next". -/
theorem run_indices_in_range_witness :
    configEx.Acts ≠ [] ∧
    ∃ s, run parseEx configEx [Event.tick, Event.pause, Event.next] = some s ∧
      s.currentActIndex < configEx.Acts.length ∧
      (s.currentPersonIndex < configEx.Persons.length →
        (∃ p, configEx.Persons[s.currentPersonIndex]? = some p) ∧
        (∃ a, configEx.Acts[s.currentActIndex]? = some a)) ∧
      (s.currentPersonIndex + 1 < configEx.Persons.length →
        ∃ p, configEx.Persons[s.currentPersonIndex + 1]? = some p) ∧
      ∀ e, ∃ s1, step parseEx configEx e s = some s1 ∧
        s1.currentActIndex < configEx.Acts.length ∧
        (s1.currentPersonIndex ≠ s.currentPersonIndex → s1.currentActIndex = 0) :=
  ⟨by decide, run_indices_in_range parseEx configEx _ (by decide)⟩

/-- The division `updateTotalProgressBar` makes is finite when there is a person. -/
theorem fdiv_persons (config : Config) (hp : config.Persons ≠ []) (n : Nat) :
    fdiv (n : ℚ) (config.Persons.length : ℚ)
      = Float64.finite ((n : ℚ) / (config.Persons.length : ℚ)) := by
  have hlen : (config.Persons.length : ℚ) ≠ 0 := by
    have := List.length_pos.mpr hp
    exact_mod_cast Nat.pos_iff_ne_zero.mp this
  unfold fdiv
  rw [if_neg hlen]

/-- A bar set to a ratio of naturals that is at most 1 holds that ratio. -/
theorem SetValue_ratio_le (n len : Nat) (hlen : 0 < len) (h : n ≤ len) :
    SetValue (Float64.finite ((n : ℚ) / (len : ℚ))) = Float64.finite ((n : ℚ) / (len : ℚ)) := by
  have hl : (0 : ℚ) < (len : ℚ) := by exact_mod_cast hlen
  have h0 : (0 : ℚ) ≤ (n : ℚ) / (len : ℚ) := div_nonneg (by positivity) (le_of_lt hl)
  have h1 : (n : ℚ) / (len : ℚ) ≤ 1 := (div_le_one hl).mpr (by exact_mod_cast h)
  simp only [SetValue]
  rw [if_neg (not_lt.mpr h0), if_neg (not_lt.mpr h1)]

/-- A bar set to a ratio of naturals above 1 holds 1, its `Max`. -/
theorem SetValue_ratio_gt (n len : Nat) (hlen : 0 < len) (h : len < n) :
    SetValue (Float64.finite ((n : ℚ) / (len : ℚ))) = Float64.finite 1 := by
  have hl : (0 : ℚ) < (len : ℚ) := by exact_mod_cast hlen
  have h1 : 1 < (n : ℚ) / (len : ℚ) := (one_lt_div hl).mpr (by exact_mod_cast h)
  simp only [SetValue]
  rw [if_neg (not_lt.mpr (le_of_lt (lt_trans one_pos h1))), if_pos h1]

/-- C8 fails as stated: in the scenario, with two persons, four taps on "Next" reach the
"Done" state with the person index 2; `updateTotalProgressBar` has passed 3/2 to a bar whose
`Max` is 1, and the value the aggregate bar holds and shows is 1, not
(currentPersonIndex + 1) / len(Persons) = 3/2. -/
theorem totalProgress_clamped_at_done :
    configEx.Persons ≠ [] ∧
    run parseEx configEx [Event.next, Event.next, Event.next, Event.next] = some doneEx ∧
    doneEx.totalProgress = Float64.finite 1 ∧
    (((doneEx.currentPersonIndex + 1 : Nat) : ℚ) / (configEx.Persons.length : ℚ)) = 3 / 2 ∧
    doneEx.totalProgress ≠ Float64.finite
      (((doneEx.currentPersonIndex + 1 : Nat) : ℚ) / (configEx.Persons.length : ℚ)) :=
  ⟨by decide, by decide!, rfl, by decide!, by decide!⟩

/-- C8 as amended: with at least one person, in every state reached from start-up through
ticks, taps on "Next" and taps on the pause button, the value the aggregate progress bar
holds is (currentPersonIndex + 1) / len(Persons) brought into the range of the bar, whose
`Max` is 1: it is that exact rational while the person index is below the number of persons,
and 1 in every "Done" state; and a further event sets that value (once) if it changes the
person index, and otherwise neither sets it nor changes it. -/
theorem totalProgress_spec (parse : String → Int) (config : Config) (es : List Event)
    (s : State) (hp : config.Persons ≠ []) (h : run parse config es = some s) :
    s.totalProgress = SetValue (Float64.finite
      (((s.currentPersonIndex + 1 : Nat) : ℚ) / (config.Persons.length : ℚ))) ∧
    (s.currentPersonIndex < config.Persons.length →
      s.totalProgress = Float64.finite
        (((s.currentPersonIndex + 1 : Nat) : ℚ) / (config.Persons.length : ℚ))) ∧
    (config.Persons.length ≤ s.currentPersonIndex → s.totalProgress = Float64.finite 1) ∧
    ∀ e s1, step parse config e s = some s1 →
      (s1.currentPersonIndex ≠ s.currentPersonIndex ∧
        s1.totalProgressSets = s.totalProgressSets + 1 ∧
        s1.totalProgress = SetValue (Float64.finite
          (((s1.currentPersonIndex + 1 : Nat) : ℚ) / (config.Persons.length : ℚ)))) ∨
      (s1.currentPersonIndex = s.currentPersonIndex ∧
        s1.totalProgressSets = s.totalProgressSets ∧
        s1.totalProgress = s.totalProgress) := by
  have hinv := Inv_run parse config es s h
  have hlen : 0 < config.Persons.length := List.length_pos.mpr hp
  have hval : s.totalProgress = SetValue (Float64.finite
      (((s.currentPersonIndex + 1 : Nat) : ℚ) / (config.Persons.length : ℚ))) := by
    rw [hinv.1, fdiv_persons config hp]
  refine ⟨hval, fun hlt => ?_, fun hge => ?_, fun e s1 hs1 => ?_⟩
  · rw [hval, SetValue_ratio_le _ _ hlen (by omega)]
  · rw [hval, SetValue_ratio_gt _ _ hlen (by omega)]
  · have hinv1 := Inv_step parse config e s s1 hinv hs1
    rcases step_person parse config e s s1 hs1 with hsame | ⟨hinc, _, hsets⟩
    · exact Or.inr hsame
    · exact Or.inl ⟨by omega, hsets, by rw [hinv1.1, fdiv_persons config hp]⟩

/-- C8 as amended, in the scenario after three ticks: person B of two, the bar at 2/2. -/
theorem totalProgress_spec_witness :
    configEx.Persons ≠ [] ∧
    run parseEx configEx [Event.tick, Event.tick, Event.tick] = some personBEx ∧
    personBEx.totalProgress = SetValue (Float64.finite
      (((personBEx.currentPersonIndex + 1 : Nat) : ℚ) / (configEx.Persons.length : ℚ))) ∧
    (personBEx.currentPersonIndex < configEx.Persons.length →
      personBEx.totalProgress = Float64.finite
        (((personBEx.currentPersonIndex + 1 : Nat) : ℚ) / (configEx.Persons.length : ℚ))) ∧
    (configEx.Persons.length ≤ personBEx.currentPersonIndex →
      personBEx.totalProgress = Float64.finite 1) ∧
    ∀ e s1, step parseEx configEx e personBEx = some s1 →
      (s1.currentPersonIndex ≠ personBEx.currentPersonIndex ∧
        s1.totalProgressSets = personBEx.totalProgressSets + 1 ∧
        s1.totalProgress = SetValue (Float64.finite
          (((s1.currentPersonIndex + 1 : Nat) : ℚ) / (configEx.Persons.length : ℚ)))) ∨
      (s1.currentPersonIndex = personBEx.currentPersonIndex ∧
        s1.totalProgressSets = personBEx.totalProgressSets ∧
        s1.totalProgress = personBEx.totalProgress) :=
  ⟨by decide, by decide!,
    totalProgress_spec parseEx configEx [Event.tick, Event.tick, Event.tick] personBEx
      (by decide) (by decide!)⟩

/-- C4 fails as stated: in the scenario, four taps on "Next" reach the "Done" state with the
person index equal to the number of persons, and a fifth tap is not a no-op: it moves the
act index from 0 to 1; a sixth moves the person index past the number of persons. -/
theorem done_skip_not_noop :
    run parseEx configEx [Event.next, Event.next, Event.next, Event.next] = some doneEx ∧
    doneEx.currentPersonIndex = configEx.Persons.length ∧
    (∃ s1, step parseEx configEx Event.next doneEx = some s1 ∧
      s1.currentActIndex = 1 ∧ s1.currentActIndex ≠ doneEx.currentActIndex ∧
      ∃ s2, step parseEx configEx Event.next s1 = some s2 ∧
        s2.currentPersonIndex = 3 ∧ s2.currentPersonIndex ≠ configEx.Persons.length) := by
  refine ⟨by decide!, by decide, { doneEx with currentActIndex := 1 }, by decide!,
    rfl, by decide, ?_⟩
  exact ⟨{ doneEx with currentPersonIndex := 3, totalProgressSets := 4 },
    by decide!, rfl, by decide⟩

/-- C4 as amended: in every reachable state that is "Done" (the person index has reached or
passed the number of persons) no ticker runs, so a delivery of the ticker changes nothing;
and a tap on "Next" returns a state that is again "Done", with the label "Done", `remaining`
and `currentDuration` unchanged, no ticker running and none created, while it does advance
the indices as `nextStage` always does (the act index moves on, or wraps to 0 with the person
index incremented) and leaves `paused` false. -/
theorem done_absorbing (parse : String → Int) (config : Config) (es : List Event) (s : State)
    (h : run parse config es = some s)
    (hd : config.Persons.length ≤ s.currentPersonIndex) :
    s.ticker ≠ some true ∧ s.personLabel = "Done" ∧
    tick parse config s = some s ∧
    ∃ s1, nextBtnTapped parse config s = some s1 ∧
      config.Persons.length ≤ s1.currentPersonIndex ∧ s1.personLabel = "Done" ∧
      s1.remaining = s.remaining ∧ s1.currentDuration = s.currentDuration ∧
      s1.ticker ≠ some true ∧ s1.tickersMade = s.tickersMade ∧
      s1.paused = false ∧
      (s.currentActIndex + 1 < config.Acts.length →
        s1.currentActIndex = s.currentActIndex + 1 ∧
        s1.currentPersonIndex = s.currentPersonIndex) ∧
      (config.Acts.length ≤ s.currentActIndex + 1 →
        s1.currentActIndex = 0 ∧ s1.currentPersonIndex = s.currentPersonIndex + 1) := by
  obtain ⟨_, hdone, _⟩ := Inv_run parse config es s h
  obtain ⟨htk, hlabel⟩ := hdone hd
  refine ⟨htk, hlabel, by rw [tick_eq, if_pos htk], ?_⟩
  rw [nextBtnTapped_eq]
  have hstop := nextBtnStopped_ticker s
  by_cases hlt : s.currentActIndex + 1 < config.Acts.length
  · have hlt2 : (nextBtnStopped s).currentActIndex + 1 < config.Acts.length := hlt
    rw [nextStage_stay parse config _ hlt2, updateUI_done parse config
      { nextBtnStopped s with currentActIndex := (nextBtnStopped s).currentActIndex + 1 } hd]
    exact ⟨_, rfl, hd, rfl, rfl, rfl, hstop, rfl, rfl, fun _ => ⟨rfl, rfl⟩,
      fun hge => absurd hlt (by omega)⟩
  · have hge : config.Acts.length ≤ (nextBtnStopped s).currentActIndex + 1 :=
      Nat.le_of_not_lt hlt
    have hd2 : config.Persons.length ≤ s.currentPersonIndex + 1 := by omega
    rw [nextStage_wrap parse config _ hge, updateUI_done parse config
      (updateTotalProgressBar config
        { nextBtnStopped s with
          currentActIndex := 0,
          currentPersonIndex := (nextBtnStopped s).currentPersonIndex + 1 }) hd2]
    exact ⟨_, rfl, hd2, rfl, rfl, rfl, hstop, rfl, rfl, fun h1 => absurd h1 hlt,
      fun _ => ⟨rfl, rfl⟩⟩

/-- C4 as amended, in the scenario after four taps on "Next". -/
theorem done_absorbing_witness :
    run parseEx configEx [Event.next, Event.next, Event.next, Event.next] = some doneEx ∧
    configEx.Persons.length ≤ doneEx.currentPersonIndex ∧
    doneEx.ticker ≠ some true ∧ doneEx.personLabel = "Done" ∧
    tick parseEx configEx doneEx = some doneEx ∧
    ∃ s1, nextBtnTapped parseEx configEx doneEx = some s1 ∧
      configEx.Persons.length ≤ s1.currentPersonIndex ∧ s1.personLabel = "Done" ∧
      s1.remaining = doneEx.remaining ∧ s1.currentDuration = doneEx.currentDuration ∧
      s1.ticker ≠ some true ∧ s1.tickersMade = doneEx.tickersMade ∧
      s1.paused = false ∧
      (doneEx.currentActIndex + 1 < configEx.Acts.length →
        s1.currentActIndex = doneEx.currentActIndex + 1 ∧
        s1.currentPersonIndex = doneEx.currentPersonIndex) ∧
      (configEx.Acts.length ≤ doneEx.currentActIndex + 1 →
        s1.currentActIndex = 0 ∧ s1.currentPersonIndex = doneEx.currentPersonIndex + 1) :=
  ⟨by decide!, by decide,
    done_absorbing parseEx configEx [Event.next, Event.next, Event.next, Event.next] doneEx
      (by decide!) (by decide)⟩

/-! ## The progress fraction -/

/-- The method `Seconds` gives zero for the zero duration only. -/
theorem Seconds_eq_zero (d : Int) : Seconds d = 0 ↔ d = 0 := by
  unfold Seconds
  constructor
  · intro h
    have hd : (d : ℚ) = 0 := by
      rcases div_eq_zero_iff.mp h with h | h
      · exact h
      · norm_num at h
    exact_mod_cast hd
  · intro h
    simp [h]

/-- A bar set to a value between 0 and 1 holds that value. -/
theorem SetValue_inUnit (x : Float64) (h : x.inUnit) : SetValue x = x := by
  cases x with
  | finite q =>
    obtain ⟨h0, h1⟩ := h
    simp only [SetValue]
    rw [if_neg (not_lt.mpr h0), if_neg (not_lt.mpr h1)]
  | nan => exact absurd h (by simp [Float64.inUnit])
  | posInf => exact absurd h (by simp [Float64.inUnit])
  | negInf => exact absurd h (by simp [Float64.inUnit])

/-- The fraction `updateProgressBar` computes is between 0 and 1 when the duration of the
act is not zero and `remaining` is between 0 and that duration (if the latter is positive). -/
theorem progressFraction_inUnit (u : State) (hcd : u.currentDuration ≠ 0)
    (h0 : 0 ≤ u.remaining) (h1 : 0 < u.currentDuration → u.remaining ≤ u.currentDuration) :
    (progressFraction u).inUnit := by
  have hs : Seconds u.currentDuration ≠ 0 := fun h => hcd ((Seconds_eq_zero _).mp h)
  have hq : Seconds u.remaining / Seconds u.currentDuration
      = (u.remaining : ℚ) / (u.currentDuration : ℚ) := by
    unfold Seconds
    field_simp
  have hr : (0 : ℚ) ≤ (u.remaining : ℚ) := by exact_mod_cast h0
  unfold progressFraction
  simp only [fdiv, if_neg hs, Float64.ltZero, hq]
  by_cases hneg : (u.remaining : ℚ) / (u.currentDuration : ℚ) < 0
  · simp [hneg, Float64.inUnit]
  · simp only [hneg, decide_False, Bool.false_eq_true, if_false, Float64.inUnit]
    refine ⟨not_lt.mp hneg, ?_⟩
    rcases lt_or_gt_of_ne hcd with hlt | hgt
    · have hc : (u.currentDuration : ℚ) < 0 := by exact_mod_cast hlt
      have hle : (u.remaining : ℚ) / (u.currentDuration : ℚ) ≤ 0 :=
        div_nonpos_of_nonneg_of_nonpos hr (le_of_lt hc)
      linarith
    · have hc : (0 : ℚ) < (u.currentDuration : ℚ) := by exact_mod_cast hgt
      have hle : (u.remaining : ℚ) ≤ (u.currentDuration : ℚ) := by exact_mod_cast h1 hgt
      exact (div_le_one hc).mpr hle

/-- The function `updateProgressBar` leaves the bar at the fraction it computes, a value
between 0 and 1, under the conditions of `progressFraction_inUnit`. -/
theorem updateProgressBar_inUnit (u : State) (hcd : u.currentDuration ≠ 0)
    (h0 : 0 ≤ u.remaining) (h1 : 0 < u.currentDuration → u.remaining ≤ u.currentDuration) :
    (updateProgressBar u).progressBar.inUnit := by
  have hf := progressFraction_inUnit u hcd h0 h1
  show (SetValue (progressFraction u)).inUnit
  rw [SetValue_inUnit _ hf]
  exact hf

/-- The clamp of the ticker loop: after the decrement `remaining` is not negative, and it is
at most the duration of the act when it was between 0 and that duration before. -/
theorem tickDecremented_bounds (s : State)
    (h : 0 < s.currentDuration → 0 ≤ s.remaining ∧ s.remaining ≤ s.currentDuration)
    (hr : s.currentDuration < 2 ^ 63) :
    0 ≤ (tickDecremented s).remaining ∧
    (0 < s.currentDuration → (tickDecremented s).remaining ≤ s.currentDuration) := by
  unfold tickDecremented
  simp only
  split_ifs with hneg
  · exact ⟨le_refl 0, fun hc => le_of_lt hc⟩
  · refine ⟨not_lt.mp hneg, fun hc => ?_⟩
    obtain ⟨h0, h1⟩ := h hc
    rw [toInt64_id _ (by unfold Second; omega) (by unfold Second; omega)]
    unfold Second
    omega

/-- The function `nextStage` establishes `ProgInv` when no act has a zero duration and it is
entered with no ticker running. -/
theorem ProgInv_nextStage (parse : String → Int) (config : Config) (t s1 : State)
    (hz : ∀ a ∈ config.Acts, parseDuration parse a.Time ≠ 0)
    (hbar : t.progressBar.inUnit) (htk : t.ticker ≠ some true)
    (hrem : 0 < t.currentDuration → 0 ≤ t.remaining ∧ t.remaining ≤ t.currentDuration)
    (hcd : t.currentDuration < 2 ^ 63)
    (h : nextStage parse config t = some s1) : ProgInv s1 := by
  have harm : ∀ stage : Act, stage ∈ config.Acts →
      parseDuration parse stage.Time ≠ 0 ∧
      (0 < parseDuration parse stage.Time →
        0 ≤ parseDuration parse stage.Time ∧
        parseDuration parse stage.Time ≤ parseDuration parse stage.Time) ∧
      parseDuration parse stage.Time < 2 ^ 63 := by
    intro stage hmem
    exact ⟨hz stage hmem, fun hpos => ⟨le_of_lt hpos, le_refl _⟩, (toInt64_range _).2⟩
  rcases nextStage_cases parse config t s1 h with
    ⟨_, _, rfl⟩ | ⟨_, _, stage, p, l, hst, rfl⟩ | ⟨_, _, rfl⟩ |
    ⟨_, _, stage, p, l, hst, rfl⟩
  · exact ⟨hbar, fun ht => absurd ht htk, hrem, hcd⟩
  · obtain ⟨a, b, c⟩ := harm stage (List.getElem?_mem hst)
    exact ⟨hbar, fun _ => a, b, c⟩
  · exact ⟨hbar, fun ht => absurd ht htk, hrem, hcd⟩
  · obtain ⟨a, b, c⟩ := harm stage (List.getElem?_mem hst)
    exact ⟨hbar, fun _ => a, b, c⟩

/-- The state after start-up satisfies `ProgInv` when no act has a zero duration. -/
theorem ProgInv_start (parse : String → Int) (config : Config) (s : State)
    (hz : ∀ a ∈ config.Acts, parseDuration parse a.Time ≠ 0)
    (h : start parse config = some s) : ProgInv s := by
  have hinit : init.progressBar.inUnit := by
    simp [init, Float64.inUnit]
  unfold start at h
  cases hu : updateUI parse config init with
  | none => rw [hu] at h; cases h
  | some u =>
    rw [hu] at h
    cases h
    rcases updateUI_cases parse config init u hu with
      ⟨_, rfl⟩ | ⟨_, stage, p, l, hst, rfl⟩
    · refine ⟨hinit, ?_, ?_, ?_⟩ <;> simp [updateTotalProgressBar, init]
    · refine ⟨hinit, fun _ => hz stage (List.getElem?_mem hst),
        fun hpos => ⟨le_of_lt hpos, le_refl _⟩, (toInt64_range _).2⟩

/-- Every event preserves `ProgInv` when no act has a zero duration. -/
theorem ProgInv_step (parse : String → Int) (config : Config) (e : Event) (s s1 : State)
    (hz : ∀ a ∈ config.Acts, parseDuration parse a.Time ≠ 0)
    (hinv : ProgInv s) (h : step parse config e s = some s1) : ProgInv s1 := by
  obtain ⟨hbar, hrun, hrem, hcd⟩ := hinv
  cases e with
  | tick =>
    rcases tick_cases parse config s s1 h with ⟨_, rfl⟩ | ⟨ht, _, hpos, rfl⟩ | ⟨ht, _, _, hn⟩
    · exact ⟨hbar, hrun, hrem, hcd⟩
    · obtain ⟨b0, b1⟩ := tickDecremented_bounds s hrem hcd
      exact ⟨updateProgressBar_inUnit (tickDecremented s) (hrun ht) b0 b1, hrun,
        fun hc => ⟨b0, b1 hc⟩, hcd⟩
    · obtain ⟨b0, b1⟩ := tickDecremented_bounds s hrem hcd
      exact ProgInv_nextStage parse config
        { updateProgressBar (tickDecremented s) with ticker := some false } s1 hz
        (updateProgressBar_inUnit (tickDecremented s) (hrun ht) b0 b1) (by simp)
        (fun hc => ⟨b0, b1 hc⟩) hcd hn
  | next =>
    simp only [step] at h
    rw [nextBtnTapped_eq] at h
    exact ProgInv_nextStage parse config (nextBtnStopped s) s1 hz hbar
      (nextBtnStopped_ticker s) hrem hcd h
  | pause =>
    simp only [step] at h
    cases h
    refine ⟨?_, ?_, ?_, ?_⟩
    · cases hp : s.paused <;> simpa [pauseBtnTapped, hp] using hbar
    · cases hp : s.paused <;> simpa [pauseBtnTapped, hp] using hrun
    · cases hp : s.paused <;> simpa [pauseBtnTapped, hp] using hrem
    · cases hp : s.paused <;> simpa [pauseBtnTapped, hp] using hcd

/-- A run from a state satisfying `ProgInv` ends in one, when no act has a zero duration. -/
theorem ProgInv_runFrom (parse : String → Int) (config : Config)
    (hz : ∀ a ∈ config.Acts, parseDuration parse a.Time ≠ 0) (es : List Event) :
    ∀ s s1 : State, ProgInv s → runFrom parse config es s = some s1 → ProgInv s1 := by
  induction es with
  | nil =>
    intro s s1 hinv h
    simp only [runFrom] at h
    cases h
    exact hinv
  | cons e es ih =>
    intro s s1 hinv h
    simp only [runFrom] at h
    cases hs : step parse config e s with
    | none => rw [hs] at h; cases h
    | some m =>
      rw [hs] at h
      exact ih m s1 (ProgInv_step parse config e s m hz hinv hs) h

/-- The state `configZero` starts in: act x armed with a duration of zero. -/
theorem start_configZero :
    start parseEx configZero = some
      { currentPersonIndex := 0, currentActIndex := 0, paused := false, remaining := 0,
        currentDuration := 0, ticker := some true, tickersMade := 1, personLabel := "A",
        stageLabel := "x", nextLabel := "", pauseBtn := "Pause",
        progressBar := Float64.finite 0, totalProgress := Float64.finite 1,
        totalProgressSets := 1 } := by decide!

/-- C3 fails as stated: with one person and one act of duration "0s", the first tick clamps
`remaining` to 0 and `updateProgressBar` divides 0 by 0: the value it sets is NaN, which is
no value of the interval from 0 to 1. -/
theorem progressBar_nan_zero_duration :
    ∃ s, run parseEx configZero [Event.tick] = some s ∧
      s.progressBar = Float64.nan ∧ ¬ s.progressBar.inUnit :=
  ⟨{ currentPersonIndex := 1, currentActIndex := 0, paused := false, remaining := 0,
     currentDuration := 0, ticker := some false, tickersMade := 1, personLabel := "Done",
     stageLabel := "x", nextLabel := "", pauseBtn := "Pause", progressBar := Float64.nan,
     totalProgress := Float64.finite 1, totalProgressSets := 2 },
    by decide!, rfl, by decide⟩

/-- C3 as amended: when no act of the configuration has the duration zero, in every state
reached from start-up through ticks, taps on "Next" and taps on the pause button the value
that `updateProgressBar` has set on the progress bar, `remaining / currentDuration` with the
clamp of the code as an exact rational, lies in the closed interval from 0 to 1, and so does
the value a further tick sets; and the fraction `updateProgressBar` computes on that tick,
before the bar receives it, lies in that interval too. -/
theorem progressBar_in_unit (parse : String → Int) (config : Config) (es : List Event)
    (s : State) (hz : ∀ a ∈ config.Acts, parseDuration parse a.Time ≠ 0)
    (h : run parse config es = some s) :
    s.progressBar.inUnit ∧
    (∀ s1, tick parse config s = some s1 → s1.progressBar.inUnit) ∧
    (s.ticker = some true → s.paused = false →
      (progressFraction (tickDecremented s)).inUnit) := by
  have hinv : ProgInv s := by
    unfold run at h
    cases hs : start parse config with
    | none => rw [hs] at h; cases h
    | some m =>
      rw [hs] at h
      exact ProgInv_runFrom parse config hz es m s (ProgInv_start parse config m hz hs) h
  refine ⟨hinv.1,
    fun s1 hs1 => (ProgInv_step parse config Event.tick s s1 hz hinv hs1).1, fun ht _ => ?_⟩
  obtain ⟨_, hrun, hrem, hcd⟩ := hinv
  obtain ⟨b0, b1⟩ := tickDecremented_bounds s hrem hcd
  exact progressFraction_inUnit (tickDecremented s) (hrun ht) b0 b1

/-- C3 as amended, in the scenario after one tick: the bar is at 1/2. -/
theorem progressBar_in_unit_witness :
    (∀ a ∈ configEx.Acts, parseDuration parseEx a.Time ≠ 0) ∧
    run parseEx configEx [Event.tick] = some tickedEx ∧
    tickedEx.progressBar = Float64.finite (1 / 2) ∧
    tickedEx.progressBar.inUnit ∧
    (∀ s1, tick parseEx configEx tickedEx = some s1 → s1.progressBar.inUnit) ∧
    (tickedEx.ticker = some true → tickedEx.paused = false →
      (progressFraction (tickDecremented tickedEx)).inUnit) :=
  ⟨by decide!, by decide!, rfl,
    progressBar_in_unit parseEx configEx [Event.tick] tickedEx (by decide!) (by decide!)⟩

/-! ## The countdown of one act -/

/-- While more than one second is left on an unpaused running ticker, a tick takes one second
off `remaining` and sets the progress bar, and does nothing else. -/
theorem tick_decrement (parse : String → Int) (config : Config) (s : State) (m : Int)
    (hm : 1 < m) (hrange : m * Second < 2 ^ 63) (hrem : s.remaining = m * Second)
    (hp : s.paused = false) (ht : s.ticker = some true) :
    ∃ f, tick parse config s
      = some { s with remaining := (m - 1) * Second, progressBar := f } := by
  have hdec : toInt64 (s.remaining - Second) = (m - 1) * Second := by
    rw [hrem, toInt64_id _ (by unfold Second at *; omega) (by unfold Second at *; omega)]
    ring
  have hpos : ¬ (m - 1) * Second < 0 := by unfold Second; omega
  have hpos2 : ¬ (m - 1) * Second ≤ 0 := by unfold Second; omega
  refine ⟨(updateProgressBar (tickDecremented s)).progressBar, ?_⟩
  rw [tick_eq, if_neg (by simp [ht]), if_neg (by simp [hp])]
  have hd : (tickDecremented s).remaining = (m - 1) * Second := by
    simp only [tickDecremented, hdec, if_neg hpos]
  rw [if_neg (by rw [hd]; exact hpos2)]
  simp only [updateProgressBar, tickDecremented, hdec, if_neg hpos]

/-- When exactly one second is left on an unpaused running ticker and the duration of the
act is not zero, a tick brings `remaining` to 0, sets the progress bar to 0, stops the ticker
and calls `nextStage`. -/
theorem tick_advance (parse : String → Int) (config : Config) (s : State)
    (hrem : s.remaining = Second) (hcd : s.currentDuration ≠ 0)
    (hp : s.paused = false) (ht : s.ticker = some true) :
    tick parse config s
      = nextStage parse config
          { s with remaining := 0, progressBar := Float64.finite 0, ticker := some false } := by
  have hdec : toInt64 (s.remaining - Second) = 0 := by
    rw [hrem, toInt64_id _ (by unfold Second; omega) (by unfold Second; omega)]
    ring
  have hs : Seconds s.currentDuration ≠ 0 := fun h => hcd ((Seconds_eq_zero _).mp h)
  rw [tick_eq, if_neg (by simp [ht]), if_neg (by simp [hp])]
  have hd : (tickDecremented s).remaining = 0 := by
    simp [tickDecremented, hdec]
  rw [if_pos (by rw [hd])]
  congr 1
  have hf : fdiv (Seconds 0) (Seconds s.currentDuration) = Float64.finite 0 := by
    unfold fdiv
    rw [if_neg hs]
    simp [Seconds]
  simp [updateProgressBar, progressFraction, tickDecremented, hdec, hf, Float64.ltZero,
    SetValue]

/-- The first ticks of a countdown of `n` seconds: after `k < n` ticks only `remaining`, now
`n - k` seconds, and the progress bar differ from the state the countdown started in. -/
theorem ticks_before_advance (parse : String → Int) (config : Config) (s : State) (n : Nat)
    (hrange : (n : Int) * Second < 2 ^ 63) (hrem : s.remaining = (n : Int) * Second)
    (hp : s.paused = false) (ht : s.ticker = some true) :
    ∀ k, k < n → ∃ f, ticks parse config k s
      = some { s with remaining := ((n : Int) - (k : Int)) * Second, progressBar := f } := by
  intro k
  induction k with
  | zero =>
    intro _
    refine ⟨s.progressBar, ?_⟩
    simp only [ticks, Nat.cast_zero, sub_zero, ← hrem]
  | succ k ih =>
    intro hk
    obtain ⟨f, hf⟩ := ih (by omega)
    simp only [ticks, hf]
    obtain ⟨g, hg⟩ := tick_decrement parse config
      { s with remaining := ((n : Int) - (k : Int)) * Second, progressBar := f }
      ((n : Int) - (k : Int)) (by omega) (by unfold Second at *; omega) rfl hp ht
    refine ⟨g, ?_⟩
    rw [hg]
    simp only [Nat.cast_add, Nat.cast_one, sub_sub]

/-- C2 fails as stated in its last clause: act x of `configNeg` lasts one second and has
just been armed at start-up, unpaused; its single tick fires `nextStage`, which arms act y,
and `remaining` is then the duration of y, one second below zero. -/
theorem countdown_ends_negative :
    start parseEx configNeg = some startNeg ∧
    configNeg.Acts[startNeg.currentActIndex]? = some ⟨"x", "1s"⟩ ∧
    parseDuration parseEx "1s" = 1 * Second ∧
    startNeg.remaining = 1 * Second ∧ startNeg.currentDuration = 1 * Second ∧
    startNeg.paused = false ∧
    ∃ s1, ticks parseEx configNeg 1 startNeg = some s1 ∧ s1.currentActIndex = 1 ∧
      s1.remaining = -1000000000 ∧ s1.remaining < 0 :=
  ⟨by decide!, by decide, by decide!, by decide, by decide, rfl,
    { startNeg with currentActIndex := 1, remaining := -1000000000,
                    currentDuration := -1000000000, stageLabel := "y", tickersMade := 2 },
    by decide!, rfl, rfl, by decide⟩

/-- C2 as amended: for an act whose duration is a positive whole number `n` of seconds, from
a state in which that act is armed (`remaining` and `currentDuration` are its duration,
`paused` is false, the ticker runs), `n` ticks in a row call `nextStage` exactly once, on the
`n`-th tick: after `k < n` ticks the state differs from the first one only in `remaining`,
which is `n - k` seconds and positive, and in the progress bar; the `n`-th tick clamps
`remaining` to 0, stops the ticker and returns what `nextStage` returns, with other indices.
Up to that call `remaining` is never negative; after it `remaining` is 0 at "Done" and
otherwise the duration of the act that `nextStage` armed, so it is not negative when no act
has a negative duration. -/
theorem countdown_spec (parse : String → Int) (config : Config) (s : State) (act : Act)
    (n : Nat) (hn : 0 < n)
    (hact : config.Acts[s.currentActIndex]? = some act)
    (hD : parseDuration parse act.Time = (n : Int) * Second)
    (hrem : s.remaining = (n : Int) * Second)
    (hcd : s.currentDuration = (n : Int) * Second)
    (hp : s.paused = false) (ht : s.ticker = some true) :
    (∀ k, k < n → ∃ f,
      ticks parse config k s
        = some { s with remaining := ((n : Int) - (k : Int)) * Second, progressBar := f } ∧
      0 < ((n : Int) - (k : Int)) * Second) ∧
    ∃ s1, ticks parse config n s = some s1 ∧
      nextStage parse config
        { s with remaining := 0, progressBar := Float64.finite 0, ticker := some false }
        = some s1 ∧
      (s1.currentPersonIndex ≠ s.currentPersonIndex ∨
        s1.currentActIndex ≠ s.currentActIndex) ∧
      (config.Persons.length ≤ s1.currentPersonIndex → s1.remaining = 0) ∧
      (s1.currentPersonIndex < config.Persons.length →
        ∃ act1, config.Acts[s1.currentActIndex]? = some act1 ∧
          s1.remaining = parseDuration parse act1.Time) ∧
      ((∀ a ∈ config.Acts, 0 ≤ parseDuration parse a.Time) → 0 ≤ s1.remaining) := by
  have hrange : (n : Int) * Second < 2 ^ 63 := by
    rw [← hD]
    exact (toInt64_range _).2
  have hacts : config.Acts ≠ [] := by
    intro he
    simp [he] at hact
  have hbefore := ticks_before_advance parse config s n hrange hrem hp ht
  constructor
  · intro k hk
    obtain ⟨f, hf⟩ := hbefore k hk
    exact ⟨f, hf, by unfold Second; omega⟩
  · obtain ⟨m, rfl⟩ : ∃ m, n = m + 1 := ⟨n - 1, by omega⟩
    obtain ⟨f, hf⟩ := hbefore m (by omega)
    obtain ⟨s1, hs1⟩ := nextStage_total parse config
      { s with remaining := 0, progressBar := Float64.finite 0, ticker := some false } hacts
    have hlast : ticks parse config (m + 1) s = some s1 := by
      have hcd0 : s.currentDuration ≠ 0 := by
        rw [hcd]
        unfold Second
        omega
      have hadv := tick_advance parse config
        { s with remaining := (((m + 1 : Nat) : Int) - (m : Int)) * Second, progressBar := f }
        (by simp only [Nat.cast_add, Nat.cast_one]; ring) hcd0 hp ht
      simp only [ticks, hf]
      rw [hadv]
      exact hs1
    refine ⟨s1, hlast, hs1, ?_, ?_, ?_, ?_⟩
    · rcases nextStage_cases parse config _ s1 hs1 with
        ⟨_, _, rfl⟩ | ⟨_, _, _, _, _, _, rfl⟩ | ⟨_, _, rfl⟩ | ⟨_, _, _, _, _, _, rfl⟩
      · exact Or.inr (by simp)
      · exact Or.inr (by simp)
      · exact Or.inl (by simp)
      · exact Or.inl (by simp)
    · intro hd
      rcases nextStage_cases parse config _ s1 hs1 with
        ⟨_, _, rfl⟩ | ⟨_, hlt, _, _, _, _, rfl⟩ | ⟨_, _, rfl⟩ | ⟨_, hlt, _, _, _, _, rfl⟩
      · rfl
      · exact absurd hd (by simpa using hlt)
      · rfl
      · exact absurd hd (by simpa using hlt)
    · intro hlt
      rcases nextStage_cases parse config _ s1 hs1 with
        ⟨_, hd, rfl⟩ | ⟨_, _, stage, _, _, hst, rfl⟩ | ⟨_, hd, rfl⟩ |
        ⟨_, _, stage, _, _, hst, rfl⟩
      · exact absurd hlt (by simpa using hd)
      · exact ⟨stage, hst, rfl⟩
      · exact absurd hlt (by simpa using hd)
      · exact ⟨stage, hst, rfl⟩
    · intro hnn
      rcases nextStage_cases parse config _ s1 hs1 with
        ⟨_, _, rfl⟩ | ⟨_, _, stage, _, _, hst, rfl⟩ | ⟨_, _, rfl⟩ |
        ⟨_, _, stage, _, _, hst, rfl⟩
      · exact le_refl 0
      · exact hnn stage (List.getElem?_mem hst)
      · exact le_refl 0
      · exact hnn stage (List.getElem?_mem hst)

/-- C2 as amended, in the scenario: from start-up, act intro of two seconds; one tick leaves
one second, the second tick advances to act main with one second remaining. -/
theorem countdown_spec_witness :
    ticks parseEx configEx 1 startEx = some tickedEx ∧ tickedEx.remaining = 1000000000 ∧
    ticks parseEx configEx 2 startEx
      = some { startEx with currentActIndex := 1, remaining := 1000000000,
                            currentDuration := 1000000000, stageLabel := "main",
                            tickersMade := 2 } ∧
    ((∀ k, k < 2 → ∃ f,
      ticks parseEx configEx k startEx
        = some { startEx with remaining := ((2 : Nat) - (k : Int)) * Second,
                              progressBar := f } ∧
      0 < (((2 : Nat) : Int) - (k : Int)) * Second) ∧
    ∃ s1, ticks parseEx configEx 2 startEx = some s1 ∧
      nextStage parseEx configEx
        { startEx with remaining := 0, progressBar := Float64.finite 0,
                       ticker := some false }
        = some s1 ∧
      (s1.currentPersonIndex ≠ startEx.currentPersonIndex ∨
        s1.currentActIndex ≠ startEx.currentActIndex) ∧
      (configEx.Persons.length ≤ s1.currentPersonIndex → s1.remaining = 0) ∧
      (s1.currentPersonIndex < configEx.Persons.length →
        ∃ act1, configEx.Acts[s1.currentActIndex]? = some act1 ∧
          s1.remaining = parseDuration parseEx act1.Time) ∧
      ((∀ a ∈ configEx.Acts, 0 ≤ parseDuration parseEx a.Time) → 0 ≤ s1.remaining)) :=
  ⟨by decide!, rfl, by decide!,
    countdown_spec parseEx configEx startEx ⟨"intro", "2s"⟩ 2 (by decide) (by decide)
      (by decide!) (by decide) (by decide) rfl rfl⟩

end Countdown
